import Mathlib

/-!
Verification of the storage indexer in `main.py` (Kerajo/Colmagzhan-back).

The development shallowly embeds the indexer: the filesystem observed by
`os.scandir`/`os.listdir` is a tree of entries (each directory listing may
fail, modelling a raised `OSError`), node dictionaries become an inductive
`Node` that records the exact dict keys the Python code writes, and the two
scan-local global counters become an explicit `ScanState` threaded through
the recursion.  File sizes are exact naturals; the `f"{x:.2f}"` rendering of
`size/1024` and `size/1048576` is modelled by exact rational arithmetic
(division of hundredths with round-half-to-even ties), which agrees with
CPython because a natural divided by a power of two is exactly representable
as a double (for sizes below 2^53) and CPython formats doubles by correctly
rounding their exact value, ties to even.
-/

namespace Colmagzhan

/-- Base URL constant from `main.py` line 17. -/
def BASE_URL : String := "http://127.0.0.1:5000"

/-- Model of posix `os.path.join` for the arguments the scanner produces:
the accumulated relative path (never ending in a separator) and a directory
entry name (nonempty, no separator, not absolute). -/
def osPathJoin (a b : String) : String :=
  if a = "" then b else a ++ "/" ++ b

/-- Index of the last dot of a character list, if any. -/
def lastDotIdx (cs : List Char) : Option Nat :=
  (cs.reverse.findIdx? (fun c => c = '.')).map (fun i => cs.length - 1 - i)

/-- Model of `os.path.splitext` on a bare entry name (no separators): split
at the last dot, except that a name whose characters before the last dot are
all dots (such as `.bashrc`) has an empty extension. -/
def splitext (s : String) : String × String :=
  let cs := s.toList
  match lastDotIdx cs with
  | none => (s, "")
  | some d =>
    if (cs.take d).any (fun c => c ≠ '.') then
      (String.mk (cs.take d), String.mk (cs.drop d))
    else (s, "")

/-- UTF-8 encoding of one scalar value, as a list of byte values. -/
def utf8Bytes (c : Char) : List Nat :=
  let n := c.toNat
  if n < 0x80 then [n]
  else if n < 0x800 then [0xC0 + n / 0x40, 0x80 + n % 0x40]
  else if n < 0x10000 then
    [0xE0 + n / 0x1000, 0x80 + n / 0x40 % 0x40, 0x80 + n % 0x40]
  else
    [0xF0 + n / 0x40000, 0x80 + n / 0x1000 % 0x40, 0x80 + n / 0x40 % 0x40,
      0x80 + n % 0x40]

/-- Bytes `urllib.parse.quote` leaves unescaped with the default
`safe='/'`: ASCII letters, digits, `_`, `.`, `-`, `~`, and `/`. -/
def isQuoteSafe (b : Nat) : Bool :=
  (0x41 ≤ b && b ≤ 0x5A) || (0x61 ≤ b && b ≤ 0x7A) || (0x30 ≤ b && b ≤ 0x39) ||
    b = 0x5F || b = 0x2E || b = 0x2D || b = 0x7E || b = 0x2F

/-- Uppercase hexadecimal digit, as used by `urllib.parse.quote`. -/
def hexDigitChar (n : Nat) : Char :=
  if n < 10 then Char.ofNat (0x30 + n) else Char.ofNat (0x37 + n)

/-- Percent-escaping of one byte. -/
def quoteByte (b : Nat) : List Char :=
  if isQuoteSafe b then [Char.ofNat b]
  else ['%', hexDigitChar (b / 16), hexDigitChar (b % 16)]

/-- Model of `urllib.parse.quote` with its default `safe='/'`. -/
def quote (s : String) : String :=
  String.mk (((s.toList.map utf8Bytes).flatten.map quoteByte).flatten)

/-- Rounding of `a / b` to the nearest integer, ties to even: the rounding
CPython applies when formatting the exact double `a per b` (for `b` a power
of two) with `"%.2f"`-style formatting. -/
def roundHalfEvenDiv (a b : Nat) : Nat :=
  let q := a / b
  let r := a % b
  if 2 * r < b then q
  else if b < 2 * r then q + 1
  else if q % 2 = 0 then q else q + 1

/-- Two-digit zero-padded rendering of `n % 100`, the fractional part of a
`"%.2f"` rendering. -/
def pad2digits (n : Nat) : String :=
  String.mk [Nat.digitChar (n % 100 / 10), Nat.digitChar (n % 10)]

/-- Rendering of a magnitude given as a whole number of hundredths, with
exactly two decimal places. -/
def renderTwoDec (h : Nat) : String :=
  toString (h / 100) ++ "." ++ pad2digits (h % 100)

/-- Model of `main.py` lines 59-61 and 71: the `fileSize` string for a file
of `size` bytes.  The label is `KB` for sizes strictly below 1 MiB, `MB`
otherwise; the magnitude is `size/1024` respectively `size/1048576`,
rendered with exactly two decimals. -/
def formatSize (size : Nat) : String :=
  let size_label := if size < 1024 * 1024 then "KB" else "MB"
  let h :=
    if size < 1024 * 1024 then roundHalfEvenDiv (100 * size) 1024
    else roundHalfEvenDiv (100 * size) (1024 * 1024)
  renderTwoDec h ++ " " ++ size_label

/-- One entry of a directory listing as `os.scandir` reports it.  A
directory carries the listing of its own contents, which is an `error` when
reading that directory raises an `OSError`; a file carries its byte size and
the already-formatted creation date (`time.strftime('%d.%m.%Y', ...)` of its
`st_ctime`, an external library call). -/
inductive FSEntry where
  | dir (name : String) (listing : Except String (List FSEntry))
  | file (name : String) (size : Nat) (fileDate : String)

/-- Name of a directory entry. -/
def FSEntry.entryName : FSEntry → String
  | .dir n _ => n
  | .file n _ _ => n

/-- Model of the `os.path.isdir` test used by `update_categories`. -/
def FSEntry.isDir : FSEntry → Bool
  | .dir _ _ => true
  | .file _ _ _ => false

/-- The two scan-local global counters of `main.py` lines 22-23. -/
structure ScanState where
  idCounter : Nat
  categoryIdCounter : Nat
deriving DecidableEq

/-- One node dictionary produced by `scan_directory`.  A `dirNode` is the
dict of lines 45-50 plus the `children` key of line 54 (its keys are `id`,
`name`, `type`, `idCategory`, `children`); a `fileNode` is the dict of lines
65-74 (keys `id`, `name`, `type`, `fileDate`, `fileType`, `fileSize`,
`filepath`, `categoryId`). -/
inductive Node where
  | dirNode (id : Nat) (name typ : String) (idCategory : Option Nat)
      (children : List Node)
  | fileNode (id : Nat) (name typ fileDate fileType fileSize filepath : String)
      (categoryId : Option Nat)

/-- The `id` field of a node. -/
def Node.nodeId : Node → Nat
  | .dirNode i _ _ _ _ => i
  | .fileNode i _ _ _ _ _ _ _ => i

/-- The `name` field of a node. -/
def Node.nodeName : Node → String
  | .dirNode _ n _ _ _ => n
  | .fileNode _ n _ _ _ _ _ _ => n

/-- The `type` field of a node. -/
def Node.typ : Node → String
  | .dirNode _ _ t _ _ => t
  | .fileNode _ _ t _ _ _ _ _ => t

/-- The value of the `idCategory` key, or `none` when the node has no such
key (file dicts store `categoryId` instead, so they have no `idCategory`). -/
def Node.idCatField : Node → Option Nat
  | .dirNode _ _ _ ic _ => ic
  | .fileNode _ _ _ _ _ _ _ _ => none

/-- The value of the `categoryId` key of a file dict (`none` for the JSON
null written for files directly under the scan root). -/
def Node.fileCategoryId : Node → Option Nat
  | .dirNode _ _ _ _ _ => none
  | .fileNode _ _ _ _ _ _ _ c => c

/-- The keys of the Python dict a node denotes, in insertion order. -/
def Node.jsonKeys : Node → List String
  | .dirNode _ _ _ _ _ => ["id", "name", "type", "idCategory", "children"]
  | .fileNode _ _ _ _ _ _ _ _ =>
      ["id", "name", "type", "fileDate", "fileType", "fileSize", "filepath",
        "categoryId"]

mutual

/-- Model of `scan_directory` (`main.py` lines 38-77): `listing` is the
outcome of `os.scandir(path)`, the remaining arguments are the function
parameters together with the two global counters.  An exception anywhere in
the walk propagates as `error` and discards the partial result, exactly as a
raised `OSError` discards the local `result` list. -/
def scan_directory (listing : Except String (List FSEntry)) (is_root : Bool)
    (parent_category_id : Option Nat) (relative_path : String)
    (st : ScanState) : Except String (List Node × ScanState) :=
  match listing with
  | .error e => .error e
  | .ok entries => scanEntries entries is_root parent_category_id relative_path st

/-- The `for entry in os.scandir(path)` loop body of `scan_directory`. -/
def scanEntries (l : List FSEntry) (is_root : Bool)
    (parent_category_id : Option Nat) (relative_path : String)
    (st : ScanState) : Except String (List Node × ScanState) :=
  match l with
  | [] => .ok ([], st)
  | .dir nm sub :: rest =>
    let category_id : Option Nat :=
      if is_root then some st.categoryIdCounter else parent_category_id
    let st1 : ScanState :=
      ⟨st.idCounter + 1,
        if is_root then st.categoryIdCounter + 1 else st.categoryIdCounter⟩
    match scan_directory sub false category_id
        (osPathJoin relative_path nm) st1 with
    | .error e => .error e
    | .ok (children, st2) =>
      match scanEntries rest is_root parent_category_id relative_path st2 with
      | .error e => .error e
      | .ok (ns, st3) =>
        .ok (Node.dirNode st.idCounter nm
              (if is_root then "Category" else "folder") category_id children
            :: ns, st3)
  | .file nm size fdate :: rest =>
    let entry_relative_path := osPathJoin relative_path nm
    let sp := splitext nm
    let file_format := if sp.2 = "" then "unknown" else sp.2.drop 1
    let file_url := BASE_URL ++ "/files/storage/" ++ quote entry_relative_path
    let item := Node.fileNode st.idCounter sp.1 "file" fdate file_format
      (formatSize size) file_url parent_category_id
    match scanEntries rest is_root parent_category_id relative_path
        ⟨st.idCounter + 1, st.categoryIdCounter⟩ with
    | .error e => .error e
    | .ok (ns, st2) => .ok (item :: ns, st2)

end

/-- Python equality `item['idCategory'] == category_id` where the stored
value may be `None` (the JSON null): `None == <int>` is `False`. -/
def icMatches (ic : Option Nat) (category_id : Int) : Bool :=
  match ic with
  | some c => (c : Int) == category_id
  | none => false

/-- Model of `find_category` (`main.py` lines 25-36) at the list call sites
the handlers use: walk the items in order; an item with an `idCategory` key
equal to the requested id is returned at once; otherwise the `children` list
(present exactly on directory dicts) is searched, and on failure the walk
continues with the remaining items. -/
def find_category (data : List Node) (category_id : Int) : Option Node :=
  match data with
  | [] => none
  | item :: rest =>
    match item with
    | .dirNode _ _ _ ic ch =>
      if icMatches ic category_id then some item
      else
        match find_category ch category_id with
        | some found => some found
        | none => find_category rest category_id
    | .fileNode _ _ _ _ _ _ _ _ => find_category rest category_id

/-- One entry of the flat category list built by `update_categories`
(`main.py` line 85): the dict `{"idCategory": idx + 1, "textCategory": name}`. -/
structure CategoryEntry where
  idCategory : Nat
  textCategory : String
deriving DecidableEq

/-- The keys of the Python dict a category entry denotes, in insertion
order. -/
def CategoryEntry.jsonKeys (_ : CategoryEntry) : List String :=
  ["idCategory", "textCategory"]

/-- Model of `update_categories` (`main.py` lines 80-88): `rootListing` is
the outcome of `os.listdir(STORAGE_DIR)` (with `os.path.isdir` information
attached), `categories` is the previously published list.  On an exception
the previous list is returned unchanged, as the `except` clause leaves the
global untouched. -/
def update_categories (rootListing : Except String (List FSEntry))
    (categories : List CategoryEntry) : List CategoryEntry :=
  match rootListing with
  | .error _ => categories
  | .ok entries =>
    let folder_names := (entries.filter FSEntry.isDir).map FSEntry.entryName
    folder_names.enum.map (fun p => ⟨p.1 + 1, p.2⟩)

/-- Model of `update_storage_data` (`main.py` lines 90-98): both counters
are reset to 1, then the root is scanned; on success the result replaces
the published tree, on an exception the previous tree is returned
unchanged. -/
def update_storage_data (rootListing : Except String (List FSEntry))
    (storage_data : List Node) : List Node :=
  match scan_directory rootListing true none "" ⟨1, 1⟩ with
  | .ok (t, _) => t
  | .error _ => storage_data

/-- The JSON value a `/storage` response denotes: the full tree, one node
subtree, or the error object literal of `main.py` line 162. -/
inductive StorageResponse where
  | tree (ns : List Node)
  | node (n : Node)
  | errObj (key msg : String)

/-- Model of the `get_storage` handler (`main.py` lines 155-163):
`category_id` is `request.args.get('idCategory', type=int)`, which is
`none` when the parameter is absent or not an integer. -/
def get_storage (storage_data : List Node) (category_id : Option Int) :
    StorageResponse :=
  match category_id with
  | none => .tree storage_data
  | some cid =>
    match find_category storage_data cid with
    | some n => .node n
    | none => .errObj "error" "Category not found"

/-- Model of the `get_categories` handler (`main.py` lines 151-153). -/
def get_categories (categories : List CategoryEntry) : List CategoryEntry :=
  categories

mutual

/-- Depth-first discovery order of the nodes of a subtree: the node itself,
then its children — the order `scan_directory` creates nodes in. -/
def dfsNode (n : Node) : List Node :=
  match n with
  | .dirNode i nm ty ic ch => .dirNode i nm ty ic ch :: dfsList ch
  | .fileNode i nm ty fd ft fs fp c => [.fileNode i nm ty fd ft fs fp c]

/-- Depth-first discovery order of a forest, siblings in listing order. -/
def dfsList (ns : List Node) : List Node :=
  match ns with
  | [] => []
  | n :: rest => dfsNode n ++ dfsList rest

end

/-- The node ids of a forest in depth-first discovery order. -/
def dfsIds (ns : List Node) : List Nat :=
  (dfsList ns).map Node.nodeId

/-- The match predicate of `find_category` as a standalone test on one
node: a dict with an `idCategory` key whose value equals the requested id.
File dicts have no `idCategory` key, hence never match. -/
def matchesCategory (category_id : Int) (n : Node) : Bool :=
  match n with
  | .dirNode _ _ _ ic _ => icMatches ic category_id
  | .fileNode _ _ _ _ _ _ _ _ => false

mutual

/-- Test that every directory dict in a subtree carries `idCategory = c`
and every file dict carries `categoryId = c`: category inheritance from the
enclosing top-level Category with category id `c`. -/
def inheritOK (c : Nat) (n : Node) : Bool :=
  match n with
  | .dirNode _ _ _ ic ch => ic == some c && inheritOKList c ch
  | .fileNode _ _ _ _ _ _ _ cid => cid == some c

/-- `inheritOK` over a forest. -/
def inheritOKList (c : Nat) (ns : List Node) : Bool :=
  match ns with
  | [] => true
  | n :: rest => inheritOK c n && inheritOKList c rest

end

mutual

/-- Test that no node of a subtree has type `Category`. -/
def noCatNode (n : Node) : Bool :=
  match n with
  | .dirNode _ _ ty _ ch => ty ≠ "Category" && noCatList ch
  | .fileNode _ _ ty _ _ _ _ _ => ty ≠ "Category"

/-- `noCatNode` over a forest. -/
def noCatList (ns : List Node) : Bool :=
  match ns with
  | [] => true
  | n :: rest => noCatNode n && noCatList rest

end

mutual

/-- All category ids present in a subtree: the values of every `idCategory`
key of a directory dict and every non-null `categoryId` of a file dict. -/
def catIdsNode (n : Node) : List Nat :=
  match n with
  | .dirNode _ _ _ ic ch => ic.toList ++ catIdsList ch
  | .fileNode _ _ _ _ _ _ _ cid => cid.toList

/-- `catIdsNode` over a forest. -/
def catIdsList (ns : List Node) : List Nat :=
  match ns with
  | [] => []
  | n :: rest => catIdsNode n ++ catIdsList rest

end

mutual

/-- The `filepath` values of all file dicts of a subtree, in discovery
order. -/
def filepathsNode (n : Node) : List String :=
  match n with
  | .dirNode _ _ _ _ ch => filepathsList ch
  | .fileNode _ _ _ _ _ _ fp _ => [fp]

/-- `filepathsNode` over a forest. -/
def filepathsList (ns : List Node) : List String :=
  match ns with
  | [] => []
  | n :: rest => filepathsNode n ++ filepathsList rest

end

mutual

/-- Test that every file dict of a subtree has key `k`. -/
def filesHaveKeyNode (k : String) (n : Node) : Bool :=
  match n with
  | .dirNode _ _ _ _ ch => filesHaveKeyList k ch
  | .fileNode i nm ty fd ft fs fp c =>
      (Node.fileNode i nm ty fd ft fs fp c).jsonKeys.contains k

/-- `filesHaveKeyNode` over a forest. -/
def filesHaveKeyList (k : String) (ns : List Node) : Bool :=
  match ns with
  | [] => true
  | n :: rest => filesHaveKeyNode k n && filesHaveKeyList k rest

end

/-- The relative paths (from the scan root, `/`-separated) of all files of
a filesystem forest, in discovery order; directories whose listing failed
contribute nothing (a successful scan has none). -/
def fsFilePaths (l : List FSEntry) (rel : String) : List String :=
  match l with
  | [] => []
  | .dir nm (.ok sub) :: rest =>
      fsFilePaths sub (osPathJoin rel nm) ++ fsFilePaths rest rel
  | .dir _ (.error _) :: rest => fsFilePaths rest rel
  | .file nm _ _ :: rest => osPathJoin rel nm :: fsFilePaths rest rel

/-- The top-level Category nodes of a published tree. -/
def topCategories (ns : List Node) : List Node :=
  ns.filter (fun n => n.typ == "Category")

/-- The claim "a Folder's or File's `categoryId` equals the `id` field of
its nearest Category ancestor, and is null with no Category ancestor",
checked on a published tree (where Category nodes occur only at top
level, see `noCatList`): every node below a top-level Category must carry
that Category's node id. -/
def claimNearestCatIsNodeId (ns : List Node) : Bool :=
  match ns with
  | [] => true
  | .dirNode i _ _ _ ch :: rest =>
      inheritOKList i ch && claimNearestCatIsNodeId rest
  | .fileNode _ _ _ _ _ _ _ cid :: rest =>
      cid.isNone && claimNearestCatIsNodeId rest

/-- The amended inheritance invariant on a published tree: every top-level
directory node is a Category carrying some category id `c`, every node
strictly below it inherits exactly `c` (at any depth, no Category nodes
below the top level), and a top-level file carries a null `categoryId`. -/
def nearestCatInherit (ns : List Node) : Bool :=
  match ns with
  | [] => true
  | .dirNode _ _ ty (some c) ch :: rest =>
      ty == "Category" && inheritOKList c ch && noCatList ch &&
        nearestCatInherit rest
  | .dirNode _ _ _ none _ :: _ => false
  | .fileNode _ _ _ _ _ _ _ cid :: rest =>
      cid.isNone && nearestCatInherit rest

/-- Example filesystem: two top-level directories, the first containing one
file, so that the second directory's node id (3) differs from its category
id (2). -/
def exFS1 : List FSEntry :=
  [FSEntry.dir "a" (.ok [FSEntry.file "x.txt" 10 "01.01.2024"]),
   FSEntry.dir "b" (.ok [FSEntry.file "y.txt" 10 "01.01.2024"])]

/-- The tree `scan_directory` produces for `exFS1`. -/
def exTree1 : List Node :=
  [Node.dirNode 1 "a" "Category" (some 1)
      [Node.fileNode 2 "x" "file" "01.01.2024" "txt" "0.01 KB"
        "http://127.0.0.1:5000/files/storage/a/x.txt" (some 1)],
   Node.dirNode 3 "b" "Category" (some 2)
      [Node.fileNode 4 "y" "file" "01.01.2024" "txt" "0.01 KB"
        "http://127.0.0.1:5000/files/storage/b/y.txt" (some 2)]]

/-- Example filesystem: a category holding a nested directory and a file,
plus a file directly under the scan root. -/
def exFS2 : List FSEntry :=
  [FSEntry.dir "docs"
      (.ok [FSEntry.dir "inner" (.ok []),
            FSEntry.file "f.txt" 0 "01.01.2024"]),
   FSEntry.file "root.txt" 2048 "01.01.2024"]

/-- The tree `scan_directory` produces for `exFS2`. -/
def exTree2 : List Node :=
  [Node.dirNode 1 "docs" "Category" (some 1)
      [Node.dirNode 2 "inner" "folder" (some 1) [],
       Node.fileNode 3 "f" "file" "01.01.2024" "txt" "0.00 KB"
         "http://127.0.0.1:5000/files/storage/docs/f.txt" (some 1)],
   Node.fileNode 4 "root" "file" "01.01.2024" "txt" "2.00 KB"
      "http://127.0.0.1:5000/files/storage/root.txt" none]

/-- Example filesystem whose walk fails midway: the second top-level
directory is unreadable. -/
def exFS4 : List FSEntry :=
  [FSEntry.dir "a" (.ok [FSEntry.file "x.txt" 10 "01.01.2024"]),
   FSEntry.dir "b" (.error "PermissionError")]

/-- A previously published tree, used to observe that a failed refresh
leaves it unchanged. -/
def exOldTree : List Node :=
  [Node.dirNode 1 "old" "Category" (some 1) []]

/-- Example filesystem: a single file at the scan root. -/
def exFS7 : List FSEntry :=
  [FSEntry.file "report.pdf" 2000000 "01.01.2024"]

/-- The single file node `scan_directory` produces for `exFS7`. -/
def exFile7 : Node :=
  Node.fileNode 1 "report" "file" "01.01.2024" "pdf" "1.91 MB"
    "http://127.0.0.1:5000/files/storage/report.pdf" none

/-- Example filesystem with names that need URL escaping. -/
def exFS7w : List FSEntry :=
  [FSEntry.dir "My Docs" (.ok [FSEntry.file "a b.txt" 5 "02.03.2024"])]

/-- The tree `scan_directory` produces for `exFS7w`. -/
def exTree7w : List Node :=
  [Node.dirNode 1 "My Docs" "Category" (some 1)
      [Node.fileNode 2 "a b" "file" "02.03.2024" "txt" "0.00 KB"
        "http://127.0.0.1:5000/files/storage/My%20Docs/a%20b.txt" (some 1)]]

/-- Example root listing with one subdirectory and one plain file. -/
def exFS8 : List FSEntry :=
  [FSEntry.dir "Docs" (.ok []), FSEntry.file "n.txt" 1 "01.01.2024"]

/-- Example filesystem with two categories, the first containing a nested
directory. -/
def exFS9 : List FSEntry :=
  [FSEntry.dir "cat1" (.ok [FSEntry.dir "sub" (.ok [])]),
   FSEntry.dir "cat2" (.ok [])]

/-- The tree `scan_directory` produces for `exFS9`. -/
def exTree9 : List Node :=
  [Node.dirNode 1 "cat1" "Category" (some 1)
      [Node.dirNode 2 "sub" "folder" (some 1) []],
   Node.dirNode 3 "cat2" "Category" (some 2) []]

/-- Root listing as `update_categories` observes it. -/
def exFS10a : List FSEntry :=
  [FSEntry.dir "alpha" (.ok []), FSEntry.dir "beta" (.ok [])]

/-- Root listing as `scan_directory` observes it: the same directory names
with a file interleaved between them. -/
def exFS10b : List FSEntry :=
  [FSEntry.dir "alpha" (.ok []), FSEntry.file "stray.txt" 3 "01.01.2024",
   FSEntry.dir "beta" (.ok [])]

/-- The tree `scan_directory` produces for `exFS10b`. -/
def exTree10 : List Node :=
  [Node.dirNode 1 "alpha" "Category" (some 1) [],
   Node.fileNode 2 "stray" "file" "01.01.2024" "txt" "0.00 KB"
      "http://127.0.0.1:5000/files/storage/stray.txt" none,
   Node.dirNode 3 "beta" "Category" (some 2) []]

/-- Structure of the top level of a scan result begun with category counter
`c` and finished with counter `cfin`: the top-level directories are
Category nodes numbered consecutively `c, c+1, ...`, each subtree inherits
its Category's id and contains no further Category node, and top-level
files carry a null `categoryId`. -/
def rootStruct (ns : List Node) (c cfin : Nat) : Prop :=
  match ns with
  | [] => cfin = c
  | .dirNode _ _ ty ic ch :: rest =>
      ty = "Category" ∧ ic = some c ∧ inheritOKList c ch = true ∧
        noCatList ch = true ∧ rootStruct rest (c + 1) cfin
  | .fileNode _ _ ty _ _ _ _ cid :: rest =>
      ty = "file" ∧ cid = none ∧ rootStruct rest c cfin

/-- Fuel-indexed executable twin of `scanEntries`, structurally recursive on
the fuel so that concrete runs reduce inside the kernel; `none` means the
fuel ran out. -/
def scanEntriesF (fuel : Nat) (l : List FSEntry) (is_root : Bool)
    (parent_category_id : Option Nat) (relative_path : String)
    (st : ScanState) : Option (Except String (List Node × ScanState)) :=
  match fuel, l with
  | 0, _ => none
  | _ + 1, [] => some (.ok ([], st))
  | fuel + 1, FSEntry.dir nm sub :: rest =>
    let category_id : Option Nat :=
      if is_root then some st.categoryIdCounter else parent_category_id
    let st1 : ScanState :=
      ⟨st.idCounter + 1,
        if is_root then st.categoryIdCounter + 1 else st.categoryIdCounter⟩
    match sub with
    | .error e => some (.error e)
    | .ok children =>
      match scanEntriesF fuel children false category_id
          (osPathJoin relative_path nm) st1 with
      | none => none
      | some (.error e) => some (.error e)
      | some (.ok (cs, st2)) =>
        match scanEntriesF fuel rest is_root parent_category_id
            relative_path st2 with
        | none => none
        | some (.error e) => some (.error e)
        | some (.ok (ns, st3)) =>
          some (.ok (Node.dirNode st.idCounter nm
            (if is_root then "Category" else "folder") category_id cs :: ns,
            st3))
  | fuel + 1, FSEntry.file nm size fdate :: rest =>
    let entry_relative_path := osPathJoin relative_path nm
    let sp := splitext nm
    let file_format := if sp.2 = "" then "unknown" else sp.2.drop 1
    let file_url := BASE_URL ++ "/files/storage/" ++ quote entry_relative_path
    let item := Node.fileNode st.idCounter sp.1 "file" fdate file_format
      (formatSize size) file_url parent_category_id
    match scanEntriesF fuel rest is_root parent_category_id relative_path
        ⟨st.idCounter + 1, st.categoryIdCounter⟩ with
    | none => none
    | some (.error e) => some (.error e)
    | some (.ok (ns, st2)) => some (.ok (item :: ns, st2))

theorem range'_consOne (s n : Nat) :
    s :: List.range' (s + 1) n = List.range' s (n + 1) := rfl

theorem range'_consAppend (s m n : Nat) :
    s :: List.range' (s + 1) m ++ List.range' (s + 1 + m) n =
    List.range' s (m + 1 + n) := by
  have h := List.range'_append (s + 1) m n 1
  simp only [one_mul] at h
  rw [List.cons_append, h, range'_consOne]
  congr 1
  omega

/-- Every successful call of the entry loop hands out the node ids
`st.idCounter, st.idCounter + 1, ...` in depth-first discovery order and
advances the allocator by exactly the number of nodes created. -/
theorem scanEntries_ids (l : List FSEntry) (r : Bool) (p : Option Nat)
    (rel : String) (st : ScanState) (ns : List Node) (st' : ScanState)
    (h : scanEntries l r p rel st = .ok (ns, st')) :
    dfsIds ns = List.range' st.idCounter (dfsList ns).length ∧
    st'.idCounter = st.idCounter + (dfsList ns).length := by
  match l with
  | [] =>
    rw [scanEntries.eq_def] at h
    simp only [Except.ok.injEq, Prod.mk.injEq] at h
    obtain ⟨h1, h2⟩ := h
    subst h1; subst h2
    simp [dfsIds, dfsList]
  | FSEntry.dir nm (.error e) :: rest =>
    rw [scanEntries.eq_def] at h
    simp only [] at h
    rw [scan_directory.eq_def] at h
    simp at h
  | FSEntry.dir nm (.ok sub_entries) :: rest =>
    rw [scanEntries.eq_def] at h
    simp only [] at h
    rw [scan_directory.eq_def] at h
    simp only [] at h
    split at h
    · exact absurd h (by simp)
    next children st2 hsub =>
      split at h
      · exact absurd h (by simp)
      next ns1 st3 hrest =>
        simp only [Except.ok.injEq, Prod.mk.injEq] at h
        obtain ⟨h1, h2⟩ := h
        subst h1; subst h2
        obtain ⟨ih1, ih2⟩ := scanEntries_ids sub_entries false _ _ _ _ _ hsub
        obtain ⟨ih3, ih4⟩ := scanEntries_ids rest r p rel _ _ _ hrest
        constructor
        · simp only [dfsIds, dfsList, dfsNode, List.map_append, List.map_cons,
            List.length_append, List.length_cons, Node.nodeId] at *
          rw [ih1, ih3, ih2]
          exact range'_consAppend st.idCounter (dfsList children).length
            (dfsList ns1).length
        · simp only [dfsList, dfsNode, List.length_append, List.length_cons] at *
          omega
  | FSEntry.file nm size fdate :: rest =>
    rw [scanEntries.eq_def] at h
    simp only [] at h
    split at h
    · exact absurd h (by simp)
    next ns1 st3 hrest =>
      simp only [Except.ok.injEq, Prod.mk.injEq] at h
      obtain ⟨h1, h2⟩ := h
      subst h1; subst h2
      obtain ⟨ih3, ih4⟩ := scanEntries_ids rest r p rel _ _ _ hrest
      constructor
      · simp only [dfsIds, dfsList, dfsNode, List.map_append, List.map_cons,
          List.map_nil, List.length_append, List.length_cons, List.length_nil,
          Node.nodeId, List.singleton_append] at *
        rw [ih3]
        exact range'_consOne st.idCounter (dfsList ns1).length
      · simp only [dfsList, dfsNode, List.length_append, List.length_cons,
          List.length_nil, List.singleton_append] at *
        omega
termination_by sizeOf l
decreasing_by
  all_goals simp_wf <;> omega


theorem scanEntries_inherit (l : List FSEntry) (c : Nat) (rel : String)
    (st : ScanState) (ns : List Node) (st' : ScanState)
    (h : scanEntries l false (some c) rel st = .ok (ns, st')) :
    inheritOKList c ns = true ∧ noCatList ns = true ∧
    st'.categoryIdCounter = st.categoryIdCounter := by
  match l with
  | [] =>
    rw [scanEntries.eq_def] at h
    simp only [Except.ok.injEq, Prod.mk.injEq] at h
    obtain ⟨h1, h2⟩ := h
    subst h1; subst h2
    simp [inheritOKList, noCatList]
  | FSEntry.dir nm (.error e) :: rest =>
    rw [scanEntries.eq_def] at h
    simp only [] at h
    rw [scan_directory.eq_def] at h
    simp at h
  | FSEntry.dir nm (.ok sub_entries) :: rest =>
    rw [scanEntries.eq_def] at h
    simp only [Bool.false_eq_true, if_false, ite_false] at h
    rw [scan_directory.eq_def] at h
    simp only [] at h
    split at h
    · exact absurd h (by simp)
    next children st2 hsub =>
      split at h
      · exact absurd h (by simp)
      next ns1 st3 hrest =>
        simp only [Except.ok.injEq, Prod.mk.injEq] at h
        obtain ⟨h1, h2⟩ := h
        subst h1; subst h2
        obtain ⟨ih1, ih2, ih3⟩ := scanEntries_inherit sub_entries c _ _ _ _ hsub
        obtain ⟨ih4, ih5, ih6⟩ := scanEntries_inherit rest c rel _ _ _ hrest
        simp only [inheritOKList, inheritOK, noCatList, noCatNode, ih1, ih2,
          ih4, ih5, beq_self_eq_true, Bool.and_true, Bool.true_and] at *
        refine ⟨by trivial, by decide, by omega⟩
  | FSEntry.file nm size fdate :: rest =>
    rw [scanEntries.eq_def] at h
    simp only [] at h
    split at h
    · exact absurd h (by simp)
    next ns1 st3 hrest =>
      simp only [Except.ok.injEq, Prod.mk.injEq] at h
      obtain ⟨h1, h2⟩ := h
      subst h1; subst h2
      obtain ⟨ih4, ih5, ih6⟩ := scanEntries_inherit rest c rel _ _ _ hrest
      simp only [inheritOKList, inheritOK, noCatList, noCatNode, ih4, ih5,
        beq_self_eq_true, Bool.and_true, Bool.true_and] at *
      refine ⟨by trivial, by decide, by omega⟩
termination_by sizeOf l
decreasing_by
  all_goals simp_wf <;> omega

theorem scanEntries_rootStruct (l : List FSEntry) (rel : String)
    (st : ScanState) (ns : List Node) (st' : ScanState)
    (h : scanEntries l true none rel st = .ok (ns, st')) :
    rootStruct ns st.categoryIdCounter st'.categoryIdCounter := by
  match l with
  | [] =>
    rw [scanEntries.eq_def] at h
    simp only [Except.ok.injEq, Prod.mk.injEq] at h
    obtain ⟨h1, h2⟩ := h
    subst h1; subst h2
    simp [rootStruct]
  | FSEntry.dir nm (.error e) :: rest =>
    rw [scanEntries.eq_def] at h
    simp only [] at h
    rw [scan_directory.eq_def] at h
    simp at h
  | FSEntry.dir nm (.ok sub_entries) :: rest =>
    rw [scanEntries.eq_def] at h
    simp only [if_true, ite_true] at h
    rw [scan_directory.eq_def] at h
    simp only [] at h
    split at h
    · exact absurd h (by simp)
    next children st2 hsub =>
      split at h
      · exact absurd h (by simp)
      next ns1 st3 hrest =>
        simp only [Except.ok.injEq, Prod.mk.injEq] at h
        obtain ⟨h1, h2⟩ := h
        subst h1; subst h2
        obtain ⟨ih1, ih2, ih3⟩ := scanEntries_inherit sub_entries
          st.categoryIdCounter _ _ _ _ hsub
        have ihr := scanEntries_rootStruct rest rel _ _ _ hrest
        rw [ih3] at ihr
        simp only [rootStruct]
        exact ⟨by trivial, by trivial, ih1, ih2, ihr⟩
  | FSEntry.file nm size fdate :: rest =>
    rw [scanEntries.eq_def] at h
    simp only [] at h
    split at h
    · exact absurd h (by simp)
    next ns1 st3 hrest =>
      simp only [Except.ok.injEq, Prod.mk.injEq] at h
      obtain ⟨h1, h2⟩ := h
      subst h1; subst h2
      have ihr := scanEntries_rootStruct rest rel _ _ _ hrest
      simp only [rootStruct]
      exact ⟨by trivial, by trivial, ihr⟩
termination_by sizeOf l
decreasing_by
  all_goals simp_wf


theorem topCategories_cons_dir (i : Nat) (nm : String) (ic : Option Nat)
    (ch rest : List Node) :
    topCategories (Node.dirNode i nm "Category" ic ch :: rest) =
      Node.dirNode i nm "Category" ic ch :: topCategories rest := rfl

theorem topCategories_cons_file (i : Nat) (nm fd ft fs fp : String)
    (cid : Option Nat) (rest : List Node) :
    topCategories (Node.fileNode i nm "file" fd ft fs fp cid :: rest) =
      topCategories rest := rfl

theorem inheritOKList_catIds (ns : List Node) (c : Nat)
    (h : inheritOKList c ns = true) :
    ∀ k, k ∈ catIdsList ns → k = c := by
  match ns with
  | [] => intro k hk; simp [catIdsList] at hk
  | Node.dirNode i nm ty ic ch :: rest =>
    simp only [inheritOKList, inheritOK, Bool.and_eq_true, beq_iff_eq] at h
    obtain ⟨⟨hic, hch⟩, hrest⟩ := h
    subst hic
    intro k hk
    simp [catIdsList, catIdsNode] at hk
    rcases hk with hk | hk | hk
    · exact hk
    · exact inheritOKList_catIds ch c hch k hk
    · exact inheritOKList_catIds rest c hrest k hk
  | Node.fileNode i nm ty fd ft fs fp cid :: rest =>
    simp only [inheritOKList, inheritOK, Bool.and_eq_true, beq_iff_eq] at h
    obtain ⟨hcid, hrest⟩ := h
    subst hcid
    intro k hk
    simp [catIdsList, catIdsNode] at hk
    rcases hk with hk | hk
    · exact hk
    · exact inheritOKList_catIds rest c hrest k hk
termination_by sizeOf ns
decreasing_by
  all_goals simp_wf <;> omega

theorem inheritOKList_find_none (ns : List Node) (c : Nat) (cid : Int)
    (h : inheritOKList c ns = true) (hne : (c : Int) ≠ cid) :
    find_category ns cid = none := by
  match ns with
  | [] => rw [find_category.eq_def]
  | Node.dirNode i nm ty ic ch :: rest =>
    simp only [inheritOKList, inheritOK, Bool.and_eq_true, beq_iff_eq] at h
    obtain ⟨⟨hic, hch⟩, hrest⟩ := h
    subst hic
    rw [find_category.eq_def]
    simp only [icMatches]
    rw [if_neg (by simp [hne])]
    rw [inheritOKList_find_none ch c cid hch hne]
    exact inheritOKList_find_none rest c cid hrest hne
  | Node.fileNode i nm ty fd ft fs fp cid2 :: rest =>
    simp only [inheritOKList, inheritOK, Bool.and_eq_true, beq_iff_eq] at h
    rw [find_category.eq_def]
    exact inheritOKList_find_none rest c cid h.2 hne
termination_by sizeOf ns
decreasing_by
  all_goals simp_wf <;> omega

theorem rootStruct_le (ns : List Node) (c cfin : Nat)
    (h : rootStruct ns c cfin) : c ≤ cfin := by
  induction ns generalizing c with
  | nil => simp only [rootStruct] at h; omega
  | cons n rest ih =>
    match n with
    | Node.dirNode i nm ty ic ch =>
      simp only [rootStruct] at h
      have := ih (c + 1) h.2.2.2.2
      omega
    | Node.fileNode i nm ty fd ft fs fp cid =>
      simp only [rootStruct] at h
      exact ih c h.2.2

theorem rootStruct_catIds_bounds (ns : List Node) (c cfin : Nat)
    (h : rootStruct ns c cfin) :
    ∀ k, k ∈ catIdsList ns → c ≤ k ∧ k < cfin := by
  induction ns generalizing c with
  | nil =>
    intro k hk; simp [catIdsList] at hk
  | cons n rest ih =>
    match n with
    | Node.dirNode i nm ty ic ch =>
      simp only [rootStruct] at h
      obtain ⟨hty, hic, hch, hnc, hrest⟩ := h
      subst hic
      intro k hk
      simp [catIdsList, catIdsNode] at hk
      have hle : c + 1 ≤ cfin := rootStruct_le rest (c + 1) cfin hrest
      rcases hk with hk | hk | hk
      · omega
      · have := inheritOKList_catIds ch c hch k hk
        omega
      · have := ih (c + 1) hrest k hk
        omega
    | Node.fileNode i nm ty fd ft fs fp cid =>
      simp only [rootStruct] at h
      obtain ⟨hty, hcid, hrest⟩ := h
      subst hcid
      intro k hk
      simp [catIdsList, catIdsNode] at hk
      exact ih c hrest k hk

theorem rootStruct_find (ns : List Node) (c cfin : Nat)
    (h : rootStruct ns c cfin) :
    ∀ k : Nat, c ≤ k → k < cfin →
      ∃ n, n ∈ ns ∧ find_category ns (k : Int) = some n ∧
        Node.typ n = "Category" ∧ Node.idCatField n = some k := by
  induction ns generalizing c with
  | nil =>
    intro k hk1 hk2
    simp only [rootStruct] at h
    omega
  | cons n rest ih =>
    match n with
    | Node.dirNode i nm ty ic ch =>
      simp only [rootStruct] at h
      obtain ⟨hty, hic, hch, hnc, hrest⟩ := h
      subst hty; subst hic
      intro k hk1 hk2
      by_cases hkc : k = c
      · subst hkc
        refine ⟨Node.dirNode i nm "Category" (some k) ch, by simp, ?_, rfl, rfl⟩
        rw [find_category.eq_def]
        simp [icMatches]
      · have hne : (c : Int) ≠ (k : Int) := by
          simp only [ne_eq, Int.natCast_inj]
          omega
        obtain ⟨n2, hmem, hfind, hty2, hic2⟩ :=
          ih (c + 1) hrest k (by omega) hk2
        refine ⟨n2, List.mem_cons_of_mem _ hmem, ?_, hty2, hic2⟩
        rw [find_category.eq_def]
        simp only [icMatches]
        rw [if_neg (by simp [hne])]
        rw [inheritOKList_find_none ch c (k : Int) hch hne]
        exact hfind
    | Node.fileNode i nm ty fd ft fs fp cid =>
      simp only [rootStruct] at h
      obtain ⟨hty, hcid, hrest⟩ := h
      intro k hk1 hk2
      obtain ⟨n2, hmem, hfind, hty2, hic2⟩ := ih c hrest k hk1 hk2
      refine ⟨n2, List.mem_cons_of_mem _ hmem, ?_, hty2, hic2⟩
      rw [find_category.eq_def]
      exact hfind

theorem rootStruct_nearestCat (ns : List Node) (c cfin : Nat)
    (h : rootStruct ns c cfin) : nearestCatInherit ns = true := by
  induction ns generalizing c with
  | nil => simp [nearestCatInherit]
  | cons n rest ih =>
    match n with
    | Node.dirNode i nm ty ic ch =>
      simp only [rootStruct] at h
      obtain ⟨hty, hic, hch, hnc, hrest⟩ := h
      subst hty; subst hic
      simp only [nearestCatInherit, hch, hnc, ih (c + 1) hrest]
      simp
    | Node.fileNode i nm ty fd ft fs fp cid =>
      simp only [rootStruct] at h
      obtain ⟨hty, hcid, hrest⟩ := h
      subst hcid
      simp only [nearestCatInherit, ih c hrest]
      simp

theorem rootStruct_topCats (ns : List Node) (c cfin : Nat)
    (h : rootStruct ns c cfin) :
    (topCategories ns).map Node.idCatField =
      (List.range' c (cfin - c)).map some := by
  induction ns generalizing c with
  | nil =>
    simp only [rootStruct] at h
    subst h
    simp [topCategories]
  | cons n rest ih =>
    match n with
    | Node.dirNode i nm ty ic ch =>
      simp only [rootStruct] at h
      obtain ⟨hty, hic, hch, hnc, hrest⟩ := h
      subst hty; subst hic
      have hle : c + 1 ≤ cfin := rootStruct_le rest (c + 1) cfin hrest
      rw [topCategories_cons_dir, List.map_cons, ih (c + 1) hrest]
      rw [show cfin - c = (cfin - (c + 1)) + 1 by omega,
        ← range'_consOne c (cfin - (c + 1))]
      simp [Node.idCatField]
    | Node.fileNode i nm ty fd ft fs fp cid =>
      simp only [rootStruct] at h
      obtain ⟨hty, hcid, hrest⟩ := h
      subst hty
      rw [topCategories_cons_file]
      exact ih c hrest


theorem find_category_eq_find? (ns : List Node) (cid : Int) :
    find_category ns cid = (dfsList ns).find? (matchesCategory cid) := by
  match ns with
  | [] =>
    rw [find_category.eq_def]
    simp [dfsList]
  | Node.dirNode i nm ty ic ch :: rest =>
    rw [find_category.eq_def]
    simp only [dfsList, dfsNode]
    rw [List.cons_append, List.find?_cons]
    by_cases hm : icMatches ic cid
    · rw [if_pos hm]
      have : matchesCategory cid (Node.dirNode i nm ty ic ch) = true := hm
      rw [this]
    · rw [if_neg hm]
      have : matchesCategory cid (Node.dirNode i nm ty ic ch) = false := by
        simp only [matchesCategory]
        exact Bool.not_eq_true _ ▸ (by simpa using hm)
      rw [this, List.find?_append]
      rw [find_category_eq_find? ch cid, find_category_eq_find? rest cid]
      cases (dfsList ch).find? (matchesCategory cid) with
      | none => simp
      | some f => simp
  | Node.fileNode i nm ty fd ft fs fp c2 :: rest =>
    rw [find_category.eq_def]
    simp only [dfsList, dfsNode, List.singleton_append]
    rw [List.find?_cons]
    have : matchesCategory cid (Node.fileNode i nm ty fd ft fs fp c2) = false := rfl
    rw [this]
    exact find_category_eq_find? rest cid
termination_by sizeOf ns
decreasing_by
  all_goals simp_wf <;> omega

theorem scanEntries_topNames (l : List FSEntry) (p : Option Nat)
    (rel : String) (st : ScanState) (ns : List Node) (st' : ScanState)
    (h : scanEntries l true p rel st = .ok (ns, st')) :
    (topCategories ns).map Node.nodeName =
      (l.filter FSEntry.isDir).map FSEntry.entryName := by
  match l with
  | [] =>
    rw [scanEntries.eq_def] at h
    simp only [Except.ok.injEq, Prod.mk.injEq] at h
    obtain ⟨h1, h2⟩ := h
    subst h1
    simp [topCategories]
  | FSEntry.dir nm (.error e) :: rest =>
    rw [scanEntries.eq_def] at h
    simp only [] at h
    rw [scan_directory.eq_def] at h
    simp at h
  | FSEntry.dir nm (.ok sub_entries) :: rest =>
    rw [scanEntries.eq_def] at h
    simp only [if_true, ite_true] at h
    rw [scan_directory.eq_def] at h
    simp only [] at h
    split at h
    · exact absurd h (by simp)
    next children st2 hsub =>
      split at h
      · exact absurd h (by simp)
      next ns1 st3 hrest =>
        simp only [Except.ok.injEq, Prod.mk.injEq] at h
        obtain ⟨h1, h2⟩ := h
        subst h1
        rw [topCategories_cons_dir, List.map_cons,
          scanEntries_topNames rest p rel _ _ _ hrest]
        simp [FSEntry.isDir, FSEntry.entryName, List.filter_cons, Node.nodeName]
  | FSEntry.file nm size fdate :: rest =>
    rw [scanEntries.eq_def] at h
    simp only [] at h
    split at h
    · exact absurd h (by simp)
    next ns1 st3 hrest =>
      simp only [Except.ok.injEq, Prod.mk.injEq] at h
      obtain ⟨h1, h2⟩ := h
      subst h1
      rw [topCategories_cons_file, scanEntries_topNames rest p rel _ _ _ hrest]
      simp [FSEntry.isDir, List.filter_cons]
termination_by sizeOf l
decreasing_by
  all_goals simp_wf

theorem scanEntries_filepaths (l : List FSEntry) (r : Bool) (p : Option Nat)
    (rel : String) (st : ScanState) (ns : List Node) (st' : ScanState)
    (h : scanEntries l r p rel st = .ok (ns, st')) :
    filepathsList ns = (fsFilePaths l rel).map
      (fun pth => BASE_URL ++ "/files/storage/" ++ quote pth) := by
  match l with
  | [] =>
    rw [scanEntries.eq_def] at h
    simp only [Except.ok.injEq, Prod.mk.injEq] at h
    obtain ⟨h1, h2⟩ := h
    subst h1
    simp [filepathsList, fsFilePaths]
  | FSEntry.dir nm (.error e) :: rest =>
    rw [scanEntries.eq_def] at h
    simp only [] at h
    rw [scan_directory.eq_def] at h
    simp at h
  | FSEntry.dir nm (.ok sub_entries) :: rest =>
    rw [scanEntries.eq_def] at h
    simp only [] at h
    rw [scan_directory.eq_def] at h
    simp only [] at h
    split at h
    · exact absurd h (by simp)
    next children st2 hsub =>
      split at h
      · exact absurd h (by simp)
      next ns1 st3 hrest =>
        simp only [Except.ok.injEq, Prod.mk.injEq] at h
        obtain ⟨h1, h2⟩ := h
        subst h1
        simp only [filepathsList, filepathsNode, fsFilePaths, List.map_append]
        rw [scanEntries_filepaths sub_entries false _ _ _ _ _ hsub,
          scanEntries_filepaths rest r p rel _ _ _ hrest]
  | FSEntry.file nm size fdate :: rest =>
    rw [scanEntries.eq_def] at h
    simp only [] at h
    split at h
    · exact absurd h (by simp)
    next ns1 st3 hrest =>
      simp only [Except.ok.injEq, Prod.mk.injEq] at h
      obtain ⟨h1, h2⟩ := h
      subst h1
      simp only [filepathsList, filepathsNode, fsFilePaths, List.map_cons,
        List.singleton_append]
      rw [scanEntries_filepaths rest r p rel _ _ _ hrest]
termination_by sizeOf l
decreasing_by
  all_goals simp_wf <;> omega

theorem update_categories_ids (entries : List FSEntry)
    (old : List CategoryEntry) :
    (update_categories (.ok entries) old).map CategoryEntry.idCategory =
      List.range' 1 (update_categories (.ok entries) old).length := by
  simp only [update_categories, List.map_map, List.length_map]
  have h1 : (CategoryEntry.idCategory ∘ fun p : Nat × String => (⟨p.1 + 1, p.2⟩ : CategoryEntry)) =
      (fun p : Nat × String => p.1 + 1) := rfl
  rw [h1]
  have h2 : (fun p : Nat × String => p.1 + 1) =
      ((fun i => i + 1) ∘ Prod.fst) := rfl
  rw [h2, ← List.map_map, List.enum_map_fst, List.enum_length,
    List.range'_eq_map_range]
  simp [Nat.add_comm]

theorem update_categories_names (entries : List FSEntry)
    (old : List CategoryEntry) :
    (update_categories (.ok entries) old).map CategoryEntry.textCategory =
      (entries.filter FSEntry.isDir).map FSEntry.entryName := by
  simp only [update_categories, List.map_map]
  have h1 : (CategoryEntry.textCategory ∘ fun p : Nat × String => (⟨p.1 + 1, p.2⟩ : CategoryEntry)) =
      (Prod.snd : Nat × String → String) := rfl
  rw [h1, List.enum_map_snd]

theorem roundHalfEvenDiv_bounds (a b : Nat) (hb : 0 < b) :
    2 * a ≤ 2 * (b * roundHalfEvenDiv a b) + b ∧
    2 * (b * roundHalfEvenDiv a b) ≤ 2 * a + b := by
  have hdm := Nat.div_add_mod a b
  have hlt : a % b < b := Nat.mod_lt _ hb
  have hmul : b * (a / b + 1) = b * (a / b) + b := by ring
  simp only [roundHalfEvenDiv]
  split_ifs <;> omega

theorem scanEntriesF_sound (fuel : Nat) :
    ∀ (l : List FSEntry) (r : Bool) (p : Option Nat) (rel : String)
      (st : ScanState) (res : Except String (List Node × ScanState)),
      scanEntriesF fuel l r p rel st = some res →
      scanEntries l r p rel st = res := by
  induction fuel with
  | zero =>
    intro l r p rel st res h
    simp [scanEntriesF] at h
  | succ fuel ih =>
    intro l r p rel st res h
    match l with
    | [] =>
      simp only [scanEntriesF, Option.some.injEq] at h
      rw [scanEntries.eq_def, h]
    | FSEntry.dir nm (.error e) :: rest =>
      simp only [scanEntriesF, Option.some.injEq] at h
      rw [scanEntries.eq_def]
      simp only []
      rw [scan_directory.eq_def]
      simp only []
      exact h
    | FSEntry.dir nm (.ok children) :: rest =>
      simp only [scanEntriesF] at h
      rw [scanEntries.eq_def]
      simp only []
      rw [scan_directory.eq_def]
      simp only []
      split at h
      · exact absurd h (by simp)
      next e hsub =>
        rw [ih children false _ _ _ _ hsub]
        simp only [Option.some.injEq] at h
        exact h
      next cs st2 hsub =>
        rw [ih children false _ _ _ _ hsub]
        simp only []
        split at h
        · exact absurd h (by simp)
        next e hrest =>
          rw [ih rest r p rel st2 _ hrest]
          simp only [Option.some.injEq] at h
          exact h
        next ns st3 hrest =>
          rw [ih rest r p rel st2 _ hrest]
          simp only [Option.some.injEq] at h
          exact h
    | FSEntry.file nm size fdate :: rest =>
      simp only [scanEntriesF] at h
      rw [scanEntries.eq_def]
      simp only []
      split at h
      · exact absurd h (by simp)
      next e hrest =>
        rw [ih rest r p rel _ _ hrest]
        simp only [Option.some.injEq] at h
        exact h
      next ns st2 hrest =>
        rw [ih rest r p rel _ _ hrest]
        simp only [Option.some.injEq] at h
        exact h

/-- Soundness of the fueled scanner at the `scan_directory` entry point. -/
theorem scan_directoryF_sound (fuel : Nat) (l : List FSEntry) (r : Bool)
    (p : Option Nat) (rel : String) (st : ScanState)
    (res : Except String (List Node × ScanState))
    (h : scanEntriesF fuel l r p rel st = some res) :
    scan_directory (.ok l) r p rel st = res := by
  rw [scan_directory.eq_def]
  exact scanEntriesF_sound fuel l r p rel st res h


theorem update_storage_data_of_ok (rootListing : Except String (List FSEntry))
    (old t : List Node) (st' : ScanState)
    (h : scan_directory rootListing true none "" ⟨1, 1⟩ = .ok (t, st')) :
    update_storage_data rootListing old = t := by
  unfold update_storage_data
  rw [h]

theorem update_storage_data_of_error
    (rootListing : Except String (List FSEntry)) (old : List Node)
    (e : String)
    (h : scan_directory rootListing true none "" ⟨1, 1⟩ = .error e) :
    update_storage_data rootListing old = old := by
  unfold update_storage_data
  rw [h]


/-- C1 counterexample: in the tree scanned from `exFS1` the second Category
`b` has node id 3 but category id 2, and its descendant file carries
`categoryId = 2`, not the ancestor's `id` field 3 — so it is false that a
Folder's or File's `categoryId` equals the `id` of its nearest Category
ancestor. -/
theorem C1_counterexample :
    update_storage_data (.ok exFS1) [] = exTree1 ∧
    claimNearestCatIsNodeId exTree1 = false := by
  refine ⟨update_storage_data_of_ok (.ok exFS1) [] exTree1 ⟨5, 3⟩
    (scan_directoryF_sound 10 exFS1 true none "" ⟨1, 1⟩ _ (by rfl)), ?_⟩
  simp [claimNearestCatIsNodeId, inheritOKList, inheritOK, exTree1]

/-- C1 (amended): for every Folder and File node produced by one scan pass,
its category field equals the `idCategory` (category-counter value) of its
nearest Category ancestor, independent of nesting depth — Category nodes
occur only at the top level — and a File with no Category ancestor (directly
under the scan root) carries a null `categoryId`. -/
theorem C1_nearest_category_inheritance
    (rootListing : Except String (List FSEntry)) (t : List Node)
    (st' : ScanState)
    (h : scan_directory rootListing true none "" ⟨1, 1⟩ = .ok (t, st')) :
    nearestCatInherit t = true := by
  rcases rootListing with e | l
  · rw [scan_directory.eq_def] at h
    simp at h
  · rw [scan_directory.eq_def] at h
    simp only [] at h
    exact rootStruct_nearestCat t 1 st'.categoryIdCounter
      (scanEntries_rootStruct l "" ⟨1, 1⟩ t st' h)

/-- C1 witness: the amended inheritance invariant on the concrete scan of
`exFS1`. -/
theorem C1_nearest_category_inheritance_witness :
    nearestCatInherit exTree1 = true :=
  C1_nearest_category_inheritance (.ok exFS1) exTree1 ⟨5, 3⟩
    (scan_directoryF_sound 10 exFS1 true none "" ⟨1, 1⟩ _ (by rfl))

/-- C2: within one scan pass (counters reset to 1 by `update_storage_data`),
`scan_directory` assigns node ids 1, 2, 3, ... in depth-first discovery
order — a directory's id before its children's, siblings in listing order,
directories and files alike — hence every node id of the pass is unique and
strictly increasing in discovery order, and the successful scan result is
what `update_storage_data` publishes. -/
theorem C2_scan_ids_consecutive (rootListing : Except String (List FSEntry))
    (old t : List Node) (st' : ScanState)
    (h : scan_directory rootListing true none "" ⟨1, 1⟩ = .ok (t, st')) :
    update_storage_data rootListing old = t ∧
    dfsIds t = List.range' 1 (dfsList t).length ∧
    List.Pairwise (· < ·) (dfsIds t) ∧
    (dfsIds t).Nodup := by
  have hupdate := update_storage_data_of_ok rootListing old t st' h
  rcases rootListing with e | l
  · rw [scan_directory.eq_def] at h
    simp at h
  · rw [scan_directory.eq_def] at h
    simp only [] at h
    obtain ⟨h1, h2⟩ := scanEntries_ids l true none "" ⟨1, 1⟩ t st' h
    refine ⟨hupdate, h1, ?_, ?_⟩
    · rw [h1]
      exact List.pairwise_lt_range' 1 _
    · rw [h1]
      exact List.nodup_range' 1 _

/-- C2 witness: the id assignment on the concrete scan of `exFS2`. -/
theorem C2_scan_ids_consecutive_witness :
    update_storage_data (.ok exFS2) [] = exTree2 ∧
    dfsIds exTree2 = List.range' 1 (dfsList exTree2).length ∧
    List.Pairwise (· < ·) (dfsIds exTree2) ∧
    (dfsIds exTree2).Nodup :=
  C2_scan_ids_consecutive (.ok exFS2) [] exTree2 ⟨5, 2⟩
    (scan_directoryF_sound 10 exFS2 true none "" ⟨1, 1⟩ _ (by rfl))

/-- C3: the subtree query searches the current tree depth-first, parent
before children and siblings in listing order, over nodes whose
`idCategory` field equals the requested id (file dicts, which have no such
key, never match), returns the first match in that order, and surfaces a
miss to HTTP clients as the JSON object with key `error` and value
`Category not found`. -/
theorem C3_subtree_query (storage_data : List Node) (category_id : Int) :
    find_category storage_data category_id =
      (dfsList storage_data).find? (matchesCategory category_id) ∧
    get_storage storage_data (some category_id) =
      (match (dfsList storage_data).find? (matchesCategory category_id) with
       | some n => StorageResponse.node n
       | none => StorageResponse.errObj "error" "Category not found") := by
  refine ⟨find_category_eq_find? storage_data category_id, ?_⟩
  simp only [get_storage, find_category_eq_find? storage_data category_id]

/-- C4: a refresh whose scan raises anywhere during the walk leaves the
previously published tree untouched, and a category refresh whose root
listing raises leaves the previously published category list untouched;
the caught error never replaces either published value. -/
theorem C4_failed_refresh_keeps_snapshot
    (rootListing : Except String (List FSEntry)) (storage_data : List Node)
    (categories : List CategoryEntry) (e msg : String)
    (h : scan_directory rootListing true none "" ⟨1, 1⟩ = .error e) :
    update_storage_data rootListing storage_data = storage_data ∧
    update_categories (.error msg) categories = categories :=
  ⟨update_storage_data_of_error rootListing storage_data e h, rfl⟩

/-- C4 witness: the walk of `exFS4` fails midway (its second directory is
unreadable) and both refresh operations keep the old published values. -/
theorem C4_failed_refresh_keeps_snapshot_witness :
    scan_directory (.ok exFS4) true none "" ⟨1, 1⟩ =
      .error "PermissionError" ∧
    update_storage_data (.ok exFS4) exOldTree = exOldTree ∧
    update_categories (.error "listdir failed") [⟨1, "old"⟩] =
      [⟨1, "old"⟩] := by
  have hscan : scan_directory (.ok exFS4) true none "" ⟨1, 1⟩ =
      .error "PermissionError" :=
    scan_directoryF_sound 10 exFS4 true none "" ⟨1, 1⟩ _ (by rfl)
  have hmain := C4_failed_refresh_keeps_snapshot (.ok exFS4) exOldTree
    [⟨1, "old"⟩] "PermissionError" "listdir failed" hscan
  exact ⟨hscan, hmain.1, hmain.2⟩


/-- C6: for a file of `S` bytes the rendered `fileSize` carries unit label
`KB` exactly when `S < 1048576` and `MB` otherwise; the rendered magnitude
always has exactly two decimal digits and is the correct rounding of
`S/1024` (`KB` case) or `S/1048576` (`MB` case) to hundredths (within half
a hundredth); in particular a 1,048,575-byte file renders as
`1024.00 KB` and a 1,048,576-byte file as `1.00 MB`. -/
theorem C6_fileSize_format :
    formatSize 1048575 = "1024.00 KB" ∧ formatSize 1048576 = "1.00 MB" ∧
    ∀ S : Nat, ∃ h : Nat,
      formatSize S =
        toString (h / 100) ++ "." ++ pad2digits (h % 100) ++ " " ++
          (if S < 1048576 then "KB" else "MB") ∧
      (pad2digits (h % 100)).length = 2 ∧
      2 * (100 * S) ≤ 2 * ((if S < 1048576 then 1024 else 1048576) * h) +
        (if S < 1048576 then 1024 else 1048576) ∧
      2 * ((if S < 1048576 then 1024 else 1048576) * h) ≤
        2 * (100 * S) + (if S < 1048576 then 1024 else 1048576) := by
  refine ⟨by decide, by decide, ?_⟩
  intro S
  have e1 : (1024 * 1024 : Nat) = 1048576 := by norm_num
  by_cases hS : S < 1048576
  · refine ⟨roundHalfEvenDiv (100 * S) 1024, ?_, rfl, ?_, ?_⟩
    · simp only [formatSize, renderTwoDec, e1, if_pos hS]
    · rw [if_pos hS]
      exact (roundHalfEvenDiv_bounds (100 * S) 1024 (by norm_num)).1
    · rw [if_pos hS]
      exact (roundHalfEvenDiv_bounds (100 * S) 1024 (by norm_num)).2
  · refine ⟨roundHalfEvenDiv (100 * S) 1048576, ?_, rfl, ?_, ?_⟩
    · simp only [formatSize, renderTwoDec, e1, if_neg hS]
    · rw [if_neg hS]
      exact (roundHalfEvenDiv_bounds (100 * S) 1048576 (by norm_num)).1
    · rw [if_neg hS]
      exact (roundHalfEvenDiv_bounds (100 * S) 1048576 (by norm_num)).2

/-- C7 counterexample: the file node scanned from `exFS7` has no `fileUrl`
key at all — its download URL sits under the key `filepath`. -/
theorem C7_counterexample :
    update_storage_data (.ok exFS7) [] = [exFile7] ∧
    Node.jsonKeys exFile7 =
      ["id", "name", "type", "fileDate", "fileType", "fileSize", "filepath",
        "categoryId"] ∧
    filesHaveKeyList "fileUrl" [exFile7] = false := by
  refine ⟨update_storage_data_of_ok (.ok exFS7) [] [exFile7] ⟨2, 1⟩
    (scan_directoryF_sound 10 exFS7 true none "" ⟨1, 1⟩ _ (by rfl)),
    rfl, ?_⟩
  simp [filesHaveKeyList, filesHaveKeyNode, exFile7, Node.jsonKeys]

/-- C7 (amended): every File node produced by a scan pass carries, under
the key `filepath`, the base URL followed by `/files/storage/` followed by
the URL-escaped relative path of the file from the scan root with
forward-slash separators, in discovery order. -/
theorem C7_filepath_url (l : List FSEntry) (t : List Node) (st' : ScanState)
    (h : scan_directory (.ok l) true none "" ⟨1, 1⟩ = .ok (t, st')) :
    filepathsList t = (fsFilePaths l "").map
      (fun pth => BASE_URL ++ "/files/storage/" ++ quote pth) := by
  rw [scan_directory.eq_def] at h
  simp only [] at h
  exact scanEntries_filepaths l true none "" ⟨1, 1⟩ t st' h

/-- C7 witness: the URL of the file `a b.txt` inside the directory
`My Docs`, with the escaping visible. -/
theorem C7_filepath_url_witness :
    filepathsList exTree7w = (fsFilePaths exFS7w "").map
      (fun pth => BASE_URL ++ "/files/storage/" ++ quote pth) ∧
    filepathsList exTree7w =
      ["http://127.0.0.1:5000/files/storage/My%20Docs/a%20b.txt"] := by
  refine ⟨C7_filepath_url exFS7w exTree7w ⟨3, 2⟩
    (scan_directoryF_sound 10 exFS7w true none "" ⟨1, 1⟩ _ (by rfl)), ?_⟩
  simp [filepathsList, filepathsNode, exTree7w]

/-- C8 counterexample: the category entries built by `update_categories`
have keys `idCategory` and `textCategory`; no `name` key exists. -/
theorem C8_counterexample :
    update_categories (.ok exFS8) [] = [⟨1, "Docs"⟩] ∧
    CategoryEntry.jsonKeys ⟨1, "Docs"⟩ = ["idCategory", "textCategory"] ∧
    (["idCategory", "textCategory"].contains "name") = false := by
  refine ⟨?_, rfl, by decide⟩
  rfl

/-- C8 (amended): the category list returned by `GET /categories` has one
entry per immediate subdirectory of the root (non-directories excluded), in
listing order, with `idCategory` the 1-based position in that listing; its
JSON objects carry the keys `idCategory` and `textCategory` (the name sits
under `textCategory`, not `name`). -/
theorem C8_categories_list (entries : List FSEntry)
    (old : List CategoryEntry) :
    get_categories (update_categories (.ok entries) old) =
      update_categories (.ok entries) old ∧
    (update_categories (.ok entries) old).map CategoryEntry.textCategory =
      (entries.filter FSEntry.isDir).map FSEntry.entryName ∧
    (update_categories (.ok entries) old).map CategoryEntry.idCategory =
      List.range' 1 (update_categories (.ok entries) old).length ∧
    (update_categories (.ok entries) old).map CategoryEntry.jsonKeys =
      List.replicate (update_categories (.ok entries) old).length
        ["idCategory", "textCategory"] := by
  refine ⟨rfl, update_categories_names entries old,
    update_categories_ids entries old, ?_⟩
  have hmem : ∀ b ∈ (update_categories (.ok entries) old).map
      CategoryEntry.jsonKeys, b = ["idCategory", "textCategory"] := by
    intro b hb
    rw [List.mem_map] at hb
    obtain ⟨e, _, he⟩ := hb
    rw [← he]
    rfl
  rw [List.eq_replicate_of_mem hmem]
  rw [List.length_map]


/-- C9: looking up any category id present anywhere in a scanned tree via
`find_category` returns the top-level Category node carrying that id
itself — a member of the top-level list, of type `Category`, never one of
its descendant Folder nodes and never a File node. -/
theorem C9_lookup_returns_category
    (rootListing : Except String (List FSEntry)) (t : List Node)
    (st' : ScanState)
    (h : scan_directory rootListing true none "" ⟨1, 1⟩ = .ok (t, st')) :
    ∀ k : Nat, k ∈ catIdsList t →
      ∃ n, n ∈ t ∧ find_category t (k : Int) = some n ∧
        Node.typ n = "Category" ∧ Node.idCatField n = some k := by
  rcases rootListing with e | l
  · rw [scan_directory.eq_def] at h
    simp at h
  · rw [scan_directory.eq_def] at h
    simp only [] at h
    have hrs := scanEntries_rootStruct l "" ⟨1, 1⟩ t st' h
    intro k hk
    obtain ⟨h1, h2⟩ := rootStruct_catIds_bounds t 1 st'.categoryIdCounter hrs k hk
    exact rootStruct_find t 1 st'.categoryIdCounter hrs k h1 h2

/-- C9 witness: in the scan of `exFS9` the id 1 occurs both on the Category
`cat1` and on its nested Folder `sub`, and the lookup returns the Category
itself. -/
theorem C9_lookup_returns_category_witness :
    (1 : Nat) ∈ catIdsList exTree9 ∧
    ∃ n, n ∈ exTree9 ∧ find_category exTree9 ((1 : Nat) : Int) = some n ∧
      Node.typ n = "Category" ∧ Node.idCatField n = some 1 := by
  refine ⟨?_, C9_lookup_returns_category (.ok exFS9) exTree9 ⟨4, 3⟩
    (scan_directoryF_sound 10 exFS9 true none "" ⟨1, 1⟩ _ (by rfl)) 1 ?_⟩ <;>
    simp [catIdsList, catIdsNode, exTree9]

/-- C10: whenever the category refresh and the scanner observe the same
top-level directory names in the same order, the two independent id
numberings coincide: the k-th top-level Category node of the scanned tree
carries `idCategory` equal to the k-th category entry's `idCategory`
(which is k), files interleaved at top level shifting nothing, and every
id in the category list is found by the subtree lookup. -/
theorem C10_category_numberings_agree (l1 l2 : List FSEntry)
    (old : List CategoryEntry) (t : List Node) (st' : ScanState)
    (hnames : (l1.filter FSEntry.isDir).map FSEntry.entryName =
      (l2.filter FSEntry.isDir).map FSEntry.entryName)
    (h : scan_directory (.ok l2) true none "" ⟨1, 1⟩ = .ok (t, st')) :
    (topCategories t).map Node.idCatField =
      (update_categories (.ok l1) old).map (fun e => some e.idCategory) ∧
    (topCategories t).map Node.nodeName =
      (update_categories (.ok l1) old).map CategoryEntry.textCategory ∧
    ∀ k, k ∈ (update_categories (.ok l1) old).map CategoryEntry.idCategory →
      ∃ n, n ∈ t ∧ find_category t (k : Int) = some n ∧
        Node.idCatField n = some k := by
  rw [scan_directory.eq_def] at h
  simp only [] at h
  have hrs := scanEntries_rootStruct l2 "" ⟨1, 1⟩ t st' h
  have htop := rootStruct_topCats t 1 st'.categoryIdCounter hrs
  have hge := rootStruct_le t 1 st'.categoryIdCounter hrs
  have htopnames := scanEntries_topNames l2 none "" ⟨1, 1⟩ t st' h
  have hcnames := update_categories_names l1 old
  have hcids := update_categories_ids l1 old
  have hlen1 : (topCategories t).length = (l2.filter FSEntry.isDir).length := by
    have := congrArg List.length htopnames
    simpa using this
  have hlenc : (update_categories (.ok l1) old).length =
      (l1.filter FSEntry.isDir).length := by
    have := congrArg List.length hcnames
    simpa using this
  have hlen12 : (l1.filter FSEntry.isDir).length =
      (l2.filter FSEntry.isDir).length := by
    have := congrArg List.length hnames
    simpa using this
  have hK : (topCategories t).length = st'.categoryIdCounter - 1 := by
    have := congrArg List.length htop
    simpa using this
  refine ⟨?_, ?_, ?_⟩
  · rw [htop]
    rw [show (fun e : CategoryEntry => some e.idCategory) =
      (some ∘ CategoryEntry.idCategory) from rfl]
    rw [← List.map_map, hcids]
    rw [show st'.categoryIdCounter - 1 =
      (update_categories (.ok l1) old).length by omega]
  · rw [htopnames, hcnames, hnames]
  · intro k hk
    rw [hcids] at hk
    rw [List.mem_range'_1] at hk
    obtain ⟨n, hmem, hfind, hty, hic⟩ :=
      rootStruct_find t 1 st'.categoryIdCounter hrs k hk.1 (by omega)
    exact ⟨n, hmem, hfind, hic⟩

/-- C10 witness: `update_categories` sees the listing `exFS10a` and the
scanner sees `exFS10b` — the same directory names `alpha`, `beta` with a
stray file interleaved — and the numberings coincide. -/
theorem C10_category_numberings_agree_witness :
    (exFS10a.filter FSEntry.isDir).map FSEntry.entryName =
      (exFS10b.filter FSEntry.isDir).map FSEntry.entryName ∧
    (topCategories exTree10).map Node.idCatField =
      (update_categories (.ok exFS10a) []).map (fun e => some e.idCategory) ∧
    (topCategories exTree10).map Node.nodeName =
      (update_categories (.ok exFS10a) []).map CategoryEntry.textCategory ∧
    ∀ k, k ∈ (update_categories (.ok exFS10a) []).map
        CategoryEntry.idCategory →
      ∃ n, n ∈ exTree10 ∧ find_category exTree10 (k : Int) = some n ∧
        Node.idCatField n = some k := by
  have hnames : (exFS10a.filter FSEntry.isDir).map FSEntry.entryName =
      (exFS10b.filter FSEntry.isDir).map FSEntry.entryName := by
    simp [exFS10a, exFS10b, FSEntry.isDir, FSEntry.entryName]
  have hmain := C10_category_numberings_agree exFS10a exFS10b [] exTree10
    ⟨4, 3⟩ hnames
    (scan_directoryF_sound 10 exFS10b true none "" ⟨1, 1⟩ _ (by rfl))
  exact ⟨hnames, hmain.1, hmain.2.1, hmain.2.2⟩

end Colmagzhan
